import Mathlib

/-!
Verification of the enrollment-window / duplicate-submission engine of the
signup application (`app.py`).

The Python source is shallowly embedded:

* `DT` models `datetime.datetime` values carrying the single fixed civil
  timezone `Asia/Shanghai` used throughout the program.  Aware datetimes in
  one fixed zone compare by their civil fields lexicographically; `DT.key`
  is an order embedding of those fields (valid field ranges assumed where
  ordering facts are proved, see `DT.Valid`).
* Pure functions (`normalize_name`, `get_signup_window`,
  `get_next_signup_start`, `is_signup_open`, `add_entry`, the duplicate
  check of the submission form, the edit/delete branches) become Lean
  functions over explicit state.
* The pandas data-frame manipulation of `ensure_schema` / `load_data` is
  embedded by an explicit table type `DF` with `nan` cells.
* The file-existence force-close flag and the lock file become explicit
  booleans / predicates.
-/

/-- Civil datetime in the fixed zone `Asia/Shanghai` (`TZ` in the source).
Mirrors the fields of `datetime.datetime` used by the program. -/
structure DT where
  year : Int
  month : Nat
  day : Nat
  hour : Nat
  minute : Nat
  second : Nat
deriving DecidableEq, Repr

/-- Injective, order-preserving encoding of the civil fields (for datetimes
whose fields are in `datetime`'s valid ranges).  Python compares aware
datetimes of one fixed zone by these fields lexicographically. -/
def DT.key (t : DT) : Int :=
  ((((t.year * 13 + (t.month : Int)) * 32 + (t.day : Int)) * 24
      + (t.hour : Int)) * 60 + (t.minute : Int)) * 60 + (t.second : Int)

/-- `a <= b` on datetimes (Python `<=`). -/
def DT.le (a b : DT) : Bool := decide (a.key ≤ b.key)

/-- `a < b` on datetimes (Python `<`). -/
def DT.lt (a b : DT) : Bool := decide (a.key < b.key)

/-- Field ranges enforced by the `datetime.datetime` constructor (days are
additionally bounded by the month length in Python; the coarser bound
suffices here). -/
def DT.Valid (t : DT) : Prop :=
  1 ≤ t.month ∧ t.month ≤ 12 ∧ 1 ≤ t.day ∧ t.day ≤ 31 ∧
    t.hour ≤ 23 ∧ t.minute ≤ 59 ∧ t.second ≤ 59

instance (t : DT) : Decidable t.Valid := by
  unfold DT.Valid; infer_instance

/-- Spec-side helper, from the spec's words: "the following month (December
rolling over to January of the next year)". -/
def spec_following_month (y : Int) (m : Nat) : Int × Nat :=
  if m = 12 then (y + 1, 1) else (y, m + 1)

/-- Spec-side helper, from the spec's words: "the previous month (January
rolling back to December of the previous year)". -/
def spec_previous_month (y : Int) (m : Nat) : Int × Nat :=
  if m = 1 then (y - 1, 12) else (y, m - 1)

/-- `get_signup_window` (app.py lines 93–116): each round runs from
day 20 00:00:00 of a month to day 2 23:59:59 of the following month. -/
def get_signup_window (now : DT) : DT × DT :=
  let y := now.year
  let m := now.month
  let d := now.day
  if 20 ≤ d then
    (⟨y, m, 20, 0, 0, 0⟩,
      if m = 12 then ⟨y + 1, 1, 2, 23, 59, 59⟩ else ⟨y, m + 1, 2, 23, 59, 59⟩)
  else
    (if m = 1 then ⟨y - 1, 12, 20, 0, 0, 0⟩ else ⟨y, m - 1, 20, 0, 0, 0⟩,
      ⟨y, m, 2, 23, 59, 59⟩)

/-- `get_next_signup_start` (app.py lines 119–129). -/
def get_next_signup_start (now : DT) : DT :=
  if now.day < 20 then ⟨now.year, now.month, 20, 0, 0, 0⟩
  else if now.month = 12 then ⟨now.year + 1, 1, 20, 0, 0, 0⟩
  else ⟨now.year, now.month + 1, 20, 0, 0, 0⟩

/-- `is_signup_open` (app.py lines 132–137).  The existence of
`FORCE_CLOSE_FILE` is passed as the boolean `force_close`; `now_cn()` as
`now`. -/
def is_signup_open (force_close : Bool) (now : DT) : Bool :=
  if force_close then false
  else
    let se := get_signup_window now
    DT.le se.1 now && DT.le now se.2

/-- Force-close engage (app.py line 388: `open(FORCE_CLOSE_FILE, "w").close()`):
the marker file now exists. -/
def engage_force_close (_ : Bool) : Bool := true

/-- Force-close release (app.py line 383: `os.remove(FORCE_CLOSE_FILE)`):
the marker file no longer exists. -/
def release_force_close (_ : Bool) : Bool := false

/-- Python's `str.isspace` characters relevant here (the ASCII whitespace
class used by `str.strip()` / `str.split()`). -/
def pyIsSpace (c : Char) : Bool :=
  c = ' ' || c = '\t' || c = '\n' || c = '\r' || c = '\x0b' || c = '\x0c'

/-- Python `str.strip()` on the character list: remove leading and trailing
whitespace. -/
def pyStrip (cs : List Char) : List Char :=
  ((cs.dropWhile pyIsSpace).reverse.dropWhile pyIsSpace).reverse

/-- Worker for Python `str.split()` with no separator: accumulate the
current word (reversed) and cut at whitespace runs. -/
def splitAux : List Char → List Char → List (List Char)
  | [], acc => if acc.isEmpty then [] else [acc.reverse]
  | c :: cs, acc =>
    if pyIsSpace c then
      if acc.isEmpty then splitAux cs [] else acc.reverse :: splitAux cs []
    else splitAux cs (c :: acc)

/-- Python `name.split()`: maximal whitespace-free runs, empties dropped. -/
def pySplit (cs : List Char) : List (List Char) := splitAux cs []

/-- Python `" ".join(ws)` for the word lists produced by `pySplit`. -/
def joinSp : List (List Char) → List Char
  | [] => []
  | [w] => w
  | w :: w2 :: ws => w ++ ' ' :: joinSp (w2 :: ws)

/-- `normalize_name` (app.py lines 33–40): `None` becomes `""`; otherwise
strip leading/trailing whitespace and collapse internal whitespace runs to
a single space (`" ".join(name.split())`). -/
def normalize_name : Option String → String
  | none => ""
  | some s => String.mk (joinSp (pySplit (pyStrip s.data)))

/-- One signup record (one row of the store, columns of `COLUMNS`,
app.py line 141).  `submittedAt` holds the result of parsing the stored
`提交时间` string with `pd.to_datetime(errors="coerce")` followed by
`tz_localize("Asia/Shanghai")` (app.py lines 184–191): `none` is `NaT`
(an unparsable timestamp), `some t` the parsed civil datetime. -/
structure Entry where
  ID : Int
  submittedAt : Option DT
  name : String
  th : String
  fill : String
deriving DecidableEq, Repr

/-- A record before id assignment (the dict built by `create_entry`,
app.py lines 202–208). -/
structure Draft where
  submittedAt : Option DT
  name : String
  th : String
  fill : String
deriving DecidableEq, Repr

/-- `pd.Series.max` over the `ID` column of a non-empty frame
(`df["ID"].max()`); the `[]` case is never consulted by `next_id`. -/
def list_max : List Int → Int
  | [] => 0
  | [x] => x
  | x :: x2 :: xs => max x (list_max (x2 :: xs))

/-- Id assignment of `add_entry` (app.py line 196):
`df["ID"].max() + 1 if not df.empty else 1`. -/
def next_id (store : List Entry) : Int :=
  if store.isEmpty then 1 else list_max (store.map (fun e => e.ID)) + 1

/-- `add_entry` (app.py lines 194–199): assign the next id and append. -/
def add_entry (store : List Entry) (d : Draft) : List Entry :=
  store ++ [⟨next_id store, d.submittedAt, d.name, d.th, d.fill⟩]

/-- Fold `add_entry` over a list of drafts (repeated form submissions). -/
def addMany (store : List Entry) : List Draft → List Entry
  | [] => store
  | d :: ds => addMany (add_entry store d) ds

/-- The filter of the delete branch (app.py line 441):
`full_df[full_df["ID"] != selected_id]`.  The branch then persists the
remainder through `save_full_data` — see `delete_and_save`. -/
def delete_entry (store : List Entry) (k : Int) : List Entry :=
  store.filter (fun e => e.ID != k)

/-- The full delete branch (app.py lines 440–442): filter, then
`save_full_data`, whose `ensure_schema` raises
`ValueError("cannot insert ID, already exists")` whenever the frame is
empty (the `ID` column is vacuously all-`NaN`, so the renumbering
`df.insert` fires on a column the fill loop already added — the behavior
established for `load_data`/`ensure_schema` on the `DF` model).  On a
non-empty remainder of integer-id rows `ensure_schema` is the identity, so
the remainder persists unchanged; deleting the last remaining entry never
persists. -/
def delete_and_save (store : List Entry) (k : Int) : Except String (List Entry) :=
  let remaining := delete_entry store k
  if remaining.isEmpty then Except.error "cannot insert ID, already exists"
  else Except.ok remaining

/-- Edit save branch (app.py lines 432–435): locate the first row whose
`ID` equals `selected_id` and overwrite its name / townhall / fill cells. -/
def updateById : List Entry → Int → String → String → String → List Entry
  | [], _, _, _, _ => []
  | e :: es, k, n, t, f =>
    if e.ID = k then { e with name := n, th := t, fill := f } :: es
    else e :: updateById es k n t f

/-- Duplicate check of the submission form (app.py lines 254–263): parse
the timestamps (`dropna` removes `NaT` rows), keep the rows whose timestamp
lies `between` the round bounds (inclusive), normalize the surviving names
and compare with the (already normalized) candidate `name`; `duplicated`
iff any match.  Rows whose timestamp fails to parse contribute `false`
exactly as the dropped `NaT` rows do. -/
def duplicateCheck (entries : List Entry) (name : String) (ws we : DT) : Bool :=
  entries.any (fun e =>
    match e.submittedAt with
    | none => false
    | some t => DT.le ws t && DT.le t we && (normalize_name (some e.name) == name))

/-- The `TimeoutError` message raised by `file_lock` (app.py line 80). -/
def LOCK_TIMEOUT_MSG : String := "系统繁忙：请稍后再试（写入锁超时）"

/-- Acquisition loop of `file_lock` (app.py lines 71–81), idealized so that
`time.sleep(0.12)` is the only consumer of wall time: at attempt `i`
(`i` sleeps of 120 ms have happened, elapsed `120 * i` ms), the exclusive
create `os.open(LOCK_FILE, O_CREAT | O_EXCL | O_WRONLY)` succeeds iff the
lock file is absent (`busy i = false`); on failure the loop raises
`TimeoutError` once the elapsed time exceeds the 8-second bound
(`8000` ms), and otherwise sleeps and retries.  Returns the successful
attempt index, or `none` for the `TimeoutError`. -/
def lock_acquire_from (busy : Nat → Bool) (i : Nat) : Option Nat :=
  if busy i = false then some i
  else if h : 8000 < 120 * i then none
  else lock_acquire_from busy (i + 1)
termination_by 67 - i
decreasing_by omega

/-- `file_lock` entry: start the loop with zero elapsed time. -/
def lock_acquire (busy : Nat → Bool) : Option Nat := lock_acquire_from busy 0

/-- `save_full_data` (app.py lines 172–181) as a transition on the
persisted snapshot `disk`: under `file_lock()` write `df`; if the lock
times out, the `TimeoutError` propagates (caught by the submission handler,
app.py lines 272–273) and the snapshot is untouched. -/
def save_full_data_m (busy : Nat → Bool) (disk df : List Entry) :
    List Entry × Option String :=
  match lock_acquire busy with
  | none => (disk, some LOCK_TIMEOUT_MSG)
  | some _ => (df, none)

/-- State of the lock marker file when a `file_lock` block exits. -/
structure LockTrace where
  acquired : Bool
  markerAfter : Bool
deriving DecidableEq, Repr

/-- A full `with file_lock(): body` block (app.py lines 65–89): on timeout
the marker was never created by this caller; on success the `finally`
clause removes it whether `body` succeeded or raised. -/
def file_lock_run (busy : Nat → Bool) (body : Except String (List Entry)) :
    Except String (List Entry) × LockTrace :=
  match lock_acquire busy with
  | none => (Except.error LOCK_TIMEOUT_MSG, ⟨false, false⟩)
  | some _ => (body, ⟨true, false⟩)

/-- A pandas cell: a string, a number, or a missing value (`NaN`). -/
inductive Cell where
  | str : String → Cell
  | int : Int → Cell
  | nan : Cell
deriving DecidableEq, Repr

/-- A pandas `DataFrame`: named columns and rows of cells (every row is
aligned with `cols`). -/
structure DF where
  cols : List String
  rows : List (List Cell)
deriving DecidableEq, Repr

/-- `COLUMNS` (app.py line 141). -/
def COLUMNS : List String :=
  ["ID", "提交时间", "游戏名字", "大本营等级", "是否接受补位"]

/-- `pd.isna` on one cell. -/
def Cell.isna : Cell → Bool
  | .nan => true
  | _ => false

/-- Numeric parse used by `pd.to_numeric` for the string cells that occur
here: a non-empty run of digits parses to the integer it denotes, anything
else (in particular `""` and timestamp strings) coerces to `NaN`. -/
def parseIntOpt (s : String) : Option Int :=
  if s.data ≠ [] ∧ s.data.all (fun c => c.isDigit) then
    some (Int.ofNat (s.data.foldl (fun n c => n * 10 + (c.toNat - '0'.toNat)) 0))
  else none

/-- `pd.to_numeric(cell, errors="coerce")`. -/
def to_numeric_coerce : Cell → Cell
  | .int n => .int n
  | .nan => .nan
  | .str s => match parseIntOpt s with
    | some n => .int n
    | none => .nan

/-- `.fillna(0).astype(int)` after `to_numeric`. -/
def coerce_id (c : Cell) : Int :=
  match to_numeric_coerce c with
  | .int n => n
  | _ => 0

/-- Index of a column label. -/
def DF.colIdx (df : DF) (c : String) : Option Nat :=
  df.cols.findIdx? (fun c2 => c2 == c)

/-- Read a column (`df[c]`); absent labels give the empty series, a case
never reached below. -/
def DF.getCol (df : DF) (c : String) : List Cell :=
  match df.colIdx c with
  | none => []
  | some i => df.rows.map (fun r => r.getD i Cell.nan)

/-- Overwrite a column in place (`df[c] = vals`, equal length). -/
def DF.setCol (df : DF) (c : String) (vals : List Cell) : DF :=
  match df.colIdx c with
  | none => df
  | some i => { df with rows := (df.rows.zip vals).map (fun p => p.1.set i p.2) }

/-- The loop `for c in COLUMNS: if c not in df.columns: df[c] = ""`
(app.py lines 147–149): each missing column is appended on the right,
filled with the scalar `""` (a string cell, hence not `NaN`). -/
def addMissing (df : DF) : DF :=
  COLUMNS.foldl
    (fun d c =>
      if d.cols.contains c then d
      else { cols := d.cols ++ [c], rows := d.rows.map (fun r => r ++ [Cell.str ""]) })
    df

/-- `df.insert(0, "ID", range(1, len(df) + 1))` (app.py line 153).  pandas
`DataFrame.insert` raises `ValueError` when the column already exists
(`allow_duplicates` defaults to `False`). -/
def insertIdCol (df : DF) : Except String DF :=
  if df.cols.contains "ID" then Except.error "cannot insert ID, already exists"
  else
    Except.ok
      { cols := "ID" :: df.cols,
        rows := ((List.range df.rows.length).zip df.rows).map
          (fun p => Cell.int (Int.ofNat p.1 + 1) :: p.2) }

/-- `df[COLUMNS]` (app.py line 157): select the declared columns in fixed
order. -/
def selectCols (df : DF) : DF :=
  { cols := COLUMNS,
    rows := df.rows.map (fun r => COLUMNS.map (fun c =>
      match df.colIdx c with
      | some i => r.getD i Cell.nan
      | none => Cell.nan)) }

/-- `ensure_schema` (app.py lines 144–158): fill missing columns with `""`,
renumber ids when the `ID` column is absent or entirely `NaN` (via
`df.insert`, which raises because the fill loop has already added an `ID`
column), then coerce the `ID` column with
`pd.to_numeric(errors="coerce").fillna(0).astype(int)` and reorder the
columns.  A raised `ValueError` is returned as `Except.error`. -/
def ensure_schema (df : DF) : Except String DF :=
  let df1 := addMissing df
  let step : Except String DF :=
    if !(df1.cols.contains "ID") || (df1.getCol "ID").all Cell.isna then
      insertIdCol df1
    else Except.ok df1
  match step with
  | .error e => .error e
  | .ok df2 =>
    .ok (selectCols (df2.setCol "ID"
      ((df2.getCol "ID").map (fun c => Cell.int (coerce_id c)))))

/-- The three states `load_data` (app.py lines 161–169) distinguishes:
`DATA_FILE` absent, present but unparsable (`pd.read_csv` raised), or
parsed into a frame. -/
inductive FileState where
  | missing
  | corrupt
  | parsed (df : DF)

/-- `pd.DataFrame(columns=COLUMNS)`: the empty table. -/
def emptyDF : DF := { cols := COLUMNS, rows := [] }

/-- `load_data` (app.py lines 161–169): a missing file yields the empty
table directly; a corrupt file substitutes the empty table and passes it
through `ensure_schema`; a parsed file passes through `ensure_schema`. -/
def load_data : FileState → Except String DF
  | .missing => .ok emptyDF
  | .corrupt => ensure_schema emptyDF
  | .parsed df => ensure_schema df

/-- C10: `normalize_name` is total over absent input: the `None` guard of
app.py line 35 returns `""` instead of raising, so every caller feeding raw
form input through it receives a string. -/
theorem C10_normalize_none_total : normalize_name none = "" := rfl

/-- C2: for every instant, if its day-of-month is at least 20 the window
runs from day 20 00:00:00 of its month to day 2 23:59:59 of the following
month (December rolling to January of the next year); if its day-of-month
is at most 19 the window runs from day 20 00:00:00 of the previous month
(January rolling back to December of the previous year) to day 2 23:59:59
of its own month. -/
theorem C2_window_bounds (t : DT) :
    (20 ≤ t.day →
      (get_signup_window t).1 = ⟨t.year, t.month, 20, 0, 0, 0⟩ ∧
      (get_signup_window t).2 =
        ⟨(spec_following_month t.year t.month).1,
          (spec_following_month t.year t.month).2, 2, 23, 59, 59⟩) ∧
    (t.day ≤ 19 →
      (get_signup_window t).1 =
        ⟨(spec_previous_month t.year t.month).1,
          (spec_previous_month t.year t.month).2, 20, 0, 0, 0⟩ ∧
      (get_signup_window t).2 = ⟨t.year, t.month, 2, 23, 59, 59⟩) := by
  unfold get_signup_window spec_following_month spec_previous_month
  constructor
  · intro h
    rw [if_pos h]
    refine ⟨rfl, ?_⟩
    by_cases hm : t.month = 12 <;> simp [hm]
  · intro h
    rw [if_neg (by omega)]
    refine ⟨?_, rfl⟩
    by_cases hm : t.month = 1 <;> simp [hm]

/-- Witness for C2 at the concrete instant 2024-12-25 10:30:00 (a December
day past the 20th, exercising the year rollover). -/
theorem C2_window_bounds_witness :
    (get_signup_window ⟨2024, 12, 25, 10, 30, 0⟩).1 = ⟨2024, 12, 20, 0, 0, 0⟩ ∧
    (get_signup_window ⟨2024, 12, 25, 10, 30, 0⟩).2 = ⟨2025, 1, 2, 23, 59, 59⟩ := by
  have H := (C2_window_bounds ⟨2024, 12, 25, 10, 30, 0⟩).1 (by decide)
  exact ⟨H.1, by simpa [spec_following_month] using H.2⟩

/-- C3: `is_signup_open` is true iff the instant lies between the computed
window bounds (inclusive) and the force-close gate is not engaged;
engaging the gate forces it false (the window computation takes no gate
input, so the window is unchanged), and releasing the gate after engaging
it restores the prior value when the gate had been disengaged. -/
theorem C3_open_iff (fc : Bool) (t : DT) :
    (is_signup_open fc t = true ↔
      DT.le (get_signup_window t).1 t = true ∧
      DT.le t (get_signup_window t).2 = true ∧ fc = false) ∧
    is_signup_open (engage_force_close fc) t = false ∧
    (fc = false →
      is_signup_open (release_force_close (engage_force_close fc)) t
        = is_signup_open fc t) := by
  cases fc <;>
    simp [is_signup_open, engage_force_close, release_force_close, Bool.and_eq_true]

/-- Witness for C3 at 2025-01-25 10:00:00, an instant inside its round. -/
theorem C3_open_iff_witness :
    is_signup_open false ⟨2025, 1, 25, 10, 0, 0⟩ = true ∧
    is_signup_open true ⟨2025, 1, 25, 10, 0, 0⟩ = false ∧
    is_signup_open (release_force_close (engage_force_close false))
        ⟨2025, 1, 25, 10, 0, 0⟩
      = is_signup_open false ⟨2025, 1, 25, 10, 0, 0⟩ := by
  refine ⟨(C3_open_iff false _).1.mpr ⟨by decide, by decide, rfl⟩, ?_,
    (C3_open_iff false _).2.2 rfl⟩
  exact (C3_open_iff true _).2.1

/-- A legacy frame: the four data columns but no `ID` column. -/
def legacyDF : DF :=
  { cols := ["提交时间", "游戏名字", "大本营等级", "是否接受补位"],
    rows := [[.str "2025-01-21 10:00:00", .str "Alice",
              .str "18本", .str "补位 (服从安排)"]] }

/-- C5 (code bug): a missing file does load as the empty table, but an
unparsable file makes `load_data` raise `ValueError` instead of returning
the empty table: `ensure_schema`'s fill loop has already added an `ID`
column, so the renumbering `df.insert(0, "ID", ...)` — reached exactly when
the `ID` column is absent or entirely `NaN`, which holds vacuously for the
substituted empty frame — always raises.  And a legacy row lacking an id is
coerced to id 0, not renumbered sequentially from 1. -/
theorem C5_load_divergence :
    load_data .missing = .ok emptyDF ∧
    load_data .corrupt = .error "cannot insert ID, already exists" ∧
    load_data (.parsed legacyDF) =
      .ok { cols := COLUMNS,
            rows := [[Cell.int 0, Cell.str "2025-01-21 10:00:00",
                      Cell.str "Alice", Cell.str "18本",
                      Cell.str "补位 (服从安排)"]] } :=
  ⟨rfl, rfl, rfl⟩

/-- Store entry with id 1, used in the C4 counterexample and witness. -/
def cex_entry : Entry :=
  ⟨1, some ⟨2025, 1, 21, 12, 0, 0⟩, "Alice", "18本", "补位 (服从安排)"⟩

/-- Store entry with id 2, used in the C4 counterexample and witness. -/
def cex_entry2 : Entry :=
  ⟨2, some ⟨2025, 1, 22, 12, 0, 0⟩, "Bob", "17本", "不补位 (必须首发)"⟩

/-- A draft submission used in the C4 counterexample. -/
def cex_draft : Draft :=
  ⟨some ⟨2025, 1, 23, 12, 0, 0⟩, "Carol", "16本", "补位 (服从安排)"⟩

/-- Counterexample to C4 as stated: delete the entry with id `k = 2` (the
strict maximum) from the store `{1, 2}` — the non-empty remainder `{1}`
persists through `save_full_data` — then append once: the new entry is
assigned `max(remaining) + 1 = 2`, exactly the deleted `k`, so ids are
reused after deletion. -/
theorem C4_id_reuse_cex :
    cex_entry2.ID = 2 ∧
    delete_and_save [cex_entry, cex_entry2] 2 = Except.ok [cex_entry] ∧
    (add_entry (delete_entry [cex_entry, cex_entry2] 2) cex_draft).map
        (fun e => e.ID)
      = [1, 2] := by
  exact ⟨rfl, rfl, by decide⟩


/-- The expected id sequence `1..n`. -/
def seq_ids (n : Nat) : List Int := (List.range n).map (fun (i : Nat) => (i : Int) + 1)

lemma list_max_concat (xs : List Int) (y : Int) (h : xs ≠ []) :
    list_max (xs ++ [y]) = max (list_max xs) y := by
  induction xs with
  | nil => exact absurd rfl h
  | cons x xs ih =>
    cases xs with
    | nil => simp [list_max]
    | cons x2 rest =>
      have hih := ih (by simp)
      simp only [List.cons_append] at hih ⊢
      rw [list_max, hih, list_max, max_assoc]

lemma le_list_max (xs : List Int) (x : Int) (h : x ∈ xs) : x ≤ list_max xs := by
  induction xs with
  | nil => simp at h
  | cons y ys ih =>
    cases ys with
    | nil =>
      simp at h
      simp [list_max, h]
    | cons y2 rest =>
      rcases List.mem_cons.mp h with rfl | hmem
      · rw [list_max]; exact le_max_left _ _
      · rw [list_max]; exact le_trans (ih hmem) (le_max_right _ _)

lemma seq_ids_succ (n : Nat) : seq_ids (n + 1) = seq_ids n ++ [(n : Int) + 1] := by
  rw [seq_ids, List.range_succ, List.map_append, List.map_singleton, seq_ids]

lemma seq_ids_ne_nil (n : Nat) (hn : 1 ≤ n) : seq_ids n ≠ [] := by
  rw [seq_ids]
  simp [List.range_eq_nil]
  omega

lemma list_max_seq_ids (k : Nat) (hk : 1 ≤ k) : list_max (seq_ids k) = (k : Int) := by
  induction k with
  | zero => omega
  | succ n ih =>
    rcases Nat.lt_or_ge n 1 with h1 | h1
    · have hn : n = 0 := by omega
      subst hn
      rw [seq_ids]
      simp [List.range_succ, list_max]
    · have h2 : list_max (seq_ids n) = (n : Int) := ih h1
      rw [seq_ids_succ, list_max_concat _ _ (seq_ids_ne_nil n h1), h2, Nat.cast_succ]
      exact max_eq_right (by omega)

lemma addMany_ids (ds : List Draft) : ∀ (s : List Entry) (k : Nat),
    s.map (fun e => e.ID) = seq_ids k →
    (addMany s ds).map (fun e => e.ID) = seq_ids (k + ds.length) := by
  induction ds with
  | nil =>
    intro s k h
    simpa [addMany] using h
  | cons d ds ih =>
    intro s k h
    have hid : next_id s = (k : Int) + 1 := by
      by_cases hs : s = []
      · subst hs
        have hk0 : k = 0 := by
          have : seq_ids k = [] := h.symm
          rw [seq_ids] at this
          simpa [List.range_eq_nil] using this
        subst hk0
        simp [next_id]
      · have hne : s.isEmpty = false := by simpa [List.isEmpty_iff] using hs
        have hk1 : 1 ≤ k := by
          rcases Nat.eq_zero_or_pos k with hk0 | hk0
          · subst hk0
            rw [seq_ids] at h
            simp at h
            exact absurd h hs
          · exact hk0
        rw [next_id, hne]
        simp only [Bool.false_eq_true, if_false, h, list_max_seq_ids k hk1]
    have hstep : (add_entry s d).map (fun e => e.ID) = seq_ids (k + 1) := by
      rw [add_entry, List.map_append, h, List.map_singleton, hid, seq_ids_succ]
    have hrec := ih (add_entry s d) (k + 1) hstep
    rw [addMany, hrec]
    congr 1
    simp
    omega

/-- C4 (amended): ids are assigned as `max(existing ids) + 1` (1 for the
empty store): appending `N` entries to the empty store yields ids `1..N`
in insertion order; a delete persists exactly when the remainder is
non-empty (deleting the last remaining entry makes `save_full_data` raise,
so the store is never persisted empty); after a persisted delete of the
entry with id `k` the next append is assigned `max(remaining ids) + 1`,
and that id differs from `k` whenever some remaining entry has id at
least `k` (when `k` was the strict maximum of a store with other entries,
the id *is* reused — see `C4_id_reuse_cex`). -/
theorem C4_monotonic_ids :
    (∀ ds : List Draft,
      (addMany [] ds).map (fun e => e.ID) = seq_ids ds.length) ∧
    (∀ (store : List Entry) (k : Int),
      (delete_and_save store k = Except.ok (delete_entry store k) ↔
        delete_entry store k ≠ []) ∧
      (delete_entry store k ≠ [] →
        next_id (delete_entry store k)
          = list_max ((delete_entry store k).map (fun e => e.ID)) + 1) ∧
      ((∃ e ∈ delete_entry store k, k ≤ e.ID) →
        next_id (delete_entry store k) ≠ k)) := by
  constructor
  · intro ds
    simpa using addMany_ids ds [] 0 (by simp [seq_ids])
  · intro store k
    refine ⟨?_, ?_, ?_⟩
    · constructor
      · intro hok
        rw [delete_and_save] at hok
        intro hnil
        rw [if_pos (by simpa [List.isEmpty_iff] using hnil)] at hok
        cases hok
      · intro hne
        rw [delete_and_save,
          if_neg (by simpa [List.isEmpty_iff] using hne : ¬ (delete_entry store k).isEmpty = true)]
    · intro hne
      have hempty : (delete_entry store k).isEmpty = false := by
        simpa [List.isEmpty_iff] using hne
      rw [next_id, hempty]
      simp
    · rintro ⟨e, he, hke⟩
      have hempty : (delete_entry store k).isEmpty = false := by
        rcases hdel : delete_entry store k with _ | ⟨a, l⟩
        · rw [hdel] at he; simp at he
        · rfl
      have hmax : e.ID ≤ list_max ((delete_entry store k).map (fun x => x.ID)) :=
        le_list_max _ _ (List.mem_map_of_mem _ he)
      rw [next_id, hempty]
      simp only [Bool.false_eq_true, if_false]
      omega

/-- Witness for C4 (amended): delete id 1 from the two-entry store with ids
1 and 2 — the non-empty remainder persists, the remaining maximum is 2,
the next id is 3, which is not 1. -/
theorem C4_monotonic_ids_witness :
    delete_and_save [cex_entry, cex_entry2] 1
      = Except.ok (delete_entry [cex_entry, cex_entry2] 1) ∧
    next_id (delete_entry [cex_entry, cex_entry2] 1)
      = list_max ((delete_entry [cex_entry, cex_entry2] 1).map (fun e => e.ID)) + 1 ∧
    next_id (delete_entry [cex_entry, cex_entry2] 1) ≠ 1 := by
  have H := C4_monotonic_ids.2 [cex_entry, cex_entry2] 1
  exact ⟨H.1.mpr (by decide), H.2.1 (by decide), H.2.2 ⟨cex_entry2, by decide, by decide⟩⟩


/-- The per-entry effect of the edit save branch. -/
def editFields (k : Int) (n t f : String) (e : Entry) : Entry :=
  if e.ID = k then { e with name := n, th := t, fill := f } else e

lemma map_editFields_id (es : List Entry) (k : Int) (n t f : String)
    (h : ∀ e ∈ es, e.ID ≠ k) : es.map (editFields k n t f) = es := by
  induction es with
  | nil => rfl
  | cons e es ih =>
    rw [List.map_cons, editFields, if_neg (h e (by simp)),
      ih (fun x hx => h x (by simp [hx]))]

lemma updateById_eq_map (store : List Entry) (k : Int) (n t f : String)
    (h : (store.map (fun e => e.ID)).Nodup) :
    updateById store k n t f = store.map (editFields k n t f) := by
  induction store with
  | nil => rfl
  | cons e es ih =>
    simp only [List.map_cons, List.nodup_cons] at h
    rw [updateById, List.map_cons]
    by_cases hek : e.ID = k
    · rw [if_pos hek]
      have htail : es.map (editFields k n t f) = es := by
        apply map_editFields_id
        intro x hx hxk
        exact h.1 (by
          rw [← hxk] at hek
          rw [hek]
          exact List.mem_map_of_mem _ hx)
      rw [htail, editFields, if_pos hek]
    · rw [if_neg hek, ih h.2]
      rw [editFields, if_neg hek]

/-- C9: provided the store's ids are unique (the store invariant), the edit
save branch overwrites only the name, tier and substitution-preference
cells of the targeted entry: the store keeps its length, every entry keeps
its `ID` and `submittedAt`, every entry whose id differs from the target is
completely unchanged, and the targeted entry receives exactly the three new
field values. -/
theorem C9_edit_frame (store : List Entry) (k : Int) (n t f : String)
    (h : (store.map (fun e => e.ID)).Nodup) :
    (updateById store k n t f).length = store.length ∧
    (∀ i, ((updateById store k n t f).get? i).map (fun e => e.ID)
        = (store.get? i).map (fun e => e.ID)) ∧
    (∀ i, ((updateById store k n t f).get? i).map (fun e => e.submittedAt)
        = (store.get? i).map (fun e => e.submittedAt)) ∧
    (∀ i e, store.get? i = some e → e.ID ≠ k →
      (updateById store k n t f).get? i = some e) ∧
    (∀ i e, store.get? i = some e → e.ID = k →
      (updateById store k n t f).get? i
        = some { e with name := n, th := t, fill := f }) := by
  rw [updateById_eq_map store k n t f h]
  refine ⟨List.length_map _ _, ?_, ?_, ?_, ?_⟩
  · intro i
    rw [List.get?_map]
    cases store.get? i with
    | none => rfl
    | some e =>
      show some ((editFields k n t f e).ID) = some e.ID
      rw [editFields]
      split <;> rfl
  · intro i
    rw [List.get?_map]
    cases store.get? i with
    | none => rfl
    | some e =>
      show some ((editFields k n t f e).submittedAt) = some e.submittedAt
      rw [editFields]
      split <;> rfl
  · intro i e he hek
    rw [List.get?_map, he]
    simp [editFields, hek]
  · intro i e he hek
    rw [List.get?_map, he]
    simp [editFields, hek]

/-- Witness for C9 on a concrete two-entry store with distinct ids 1 and 2,
editing the entry with id 2. -/
theorem C9_edit_frame_witness :
    (updateById [cex_entry, cex_entry2] 2 "Dora" "16本" "补位 (服从安排)").get? 0
      = some cex_entry ∧
    (updateById [cex_entry, cex_entry2] 2 "Dora" "16本" "补位 (服从安排)").get? 1
      = some { cex_entry2 with
                name := "Dora", th := "16本", fill := "补位 (服从安排)" } := by
  have H := C9_edit_frame [cex_entry, cex_entry2] 2 "Dora" "16本" "补位 (服从安排)"
    (by decide)
  exact ⟨H.2.2.2.1 0 cex_entry rfl (by decide), H.2.2.2.2 1 cex_entry2 rfl (by decide)⟩

/-- Round bounds used by the concrete C1 checks: the January 2025 round. -/
def roundS : DT := ⟨2025, 1, 20, 0, 0, 0⟩

/-- End of the January 2025 round. -/
def roundE : DT := ⟨2025, 2, 2, 23, 59, 59⟩

/-- An entry submitted inside the round under the name `"  Alice "`. -/
def aliceEntry : Entry :=
  ⟨1, some ⟨2025, 1, 25, 10, 0, 0⟩, "  Alice ", "18本", "补位 (服从安排)"⟩

/-- An `"Alice"` entry timestamped one second after the round end. -/
def lateAliceEntry : Entry :=
  ⟨1, some ⟨2025, 2, 3, 0, 0, 0⟩, "Alice", "18本", "补位 (服从安排)"⟩

/-- C1: the duplicate check answers true iff some entry whose timestamp
parses (is not `NaT`) and lies within the round bounds (inclusive) has a
normalized name exactly equal to the normalized candidate name; unparsable
timestamps are excluded rather than matching or erroring.  Concretely,
`"  Alice "` inside the round duplicates the candidate `"Alice"`, an entry
one second after the round end does not, and the comparison is
case-sensitive (`"alice"` does not match). -/
theorem C1_duplicate_iff :
    (∀ (entries : List Entry) (raw : String) (ws we : DT),
      duplicateCheck entries (normalize_name (some raw)) ws we = true ↔
        ∃ e ∈ entries, ∃ t, e.submittedAt = some t ∧
          DT.le ws t = true ∧ DT.le t we = true ∧
          normalize_name (some e.name) = normalize_name (some raw)) ∧
    duplicateCheck [aliceEntry] (normalize_name (some "Alice")) roundS roundE
      = true ∧
    duplicateCheck [lateAliceEntry] (normalize_name (some "Alice")) roundS roundE
      = false ∧
    duplicateCheck [lateAliceEntry] (normalize_name (some "alice")) roundS roundE
      = false := by
  refine ⟨?_, by decide, by decide, by decide⟩
  intro entries raw ws we
  rw [duplicateCheck, List.any_eq_true]
  constructor
  · rintro ⟨e, he, hmatch⟩
    refine ⟨e, he, ?_⟩
    cases hat : e.submittedAt with
    | none => rw [hat] at hmatch; cases hmatch
    | some t =>
      rw [hat] at hmatch
      simp only [Bool.and_eq_true, beq_iff_eq] at hmatch
      exact ⟨t, rfl, hmatch.1.1, hmatch.1.2, hmatch.2⟩
  · rintro ⟨e, he, t, hat, h1, h2, h3⟩
    refine ⟨e, he, ?_⟩
    rw [hat]
    simp only [Bool.and_eq_true, beq_iff_eq]
    exact ⟨⟨h1, h2⟩, h3⟩

/-- C6: for every valid instant, `get_next_signup_start` returns day 20
00:00:00 of the instant's own month when its day-of-month is below 20, and
of the following month otherwise (December rolling to January of the next
year); the result is always future-or-present, and whenever the instant
lies inside its round the result differs from the round's start. -/
theorem C6_next_start (t : DT) (hv : t.Valid) :
    (t.day < 20 →
      get_next_signup_start t = ⟨t.year, t.month, 20, 0, 0, 0⟩) ∧
    (20 ≤ t.day →
      get_next_signup_start t =
        ⟨(spec_following_month t.year t.month).1,
          (spec_following_month t.year t.month).2, 20, 0, 0, 0⟩) ∧
    DT.le t (get_next_signup_start t) = true ∧
    (DT.le (get_signup_window t).1 t = true →
      DT.le t (get_signup_window t).2 = true →
      get_next_signup_start t ≠ (get_signup_window t).1) := by
  obtain ⟨hm1, hm2, hd1, hd2, hh, hmin, hs⟩ := hv
  refine ⟨?_, ?_, ?_, ?_⟩
  · intro h
    rw [get_next_signup_start, if_pos h]
  · intro h
    rw [get_next_signup_start, if_neg (by omega), spec_following_month]
    by_cases hm : t.month = 12 <;> simp [hm]
  · rw [get_next_signup_start, DT.le, decide_eq_true_eq]
    by_cases hlt : t.day < 20
    · rw [if_pos hlt, DT.key, DT.key]
      simp only
      omega
    · rw [if_neg hlt]
      by_cases hm : t.month = 12
      · rw [if_pos hm, DT.key, DT.key]
        simp only [hm]
        omega
      · rw [if_neg hm, DT.key, DT.key]
        simp only
        omega
  · intro hin1 hin2
    rw [get_next_signup_start, get_signup_window]
    by_cases hlt : t.day < 20
    · rw [if_pos hlt, if_neg (by omega : ¬ 20 ≤ t.day)]
      by_cases hm : t.month = 1
      · rw [if_pos hm]
        intro heq
        have := congrArg DT.year heq
        simp at this
        omega
      · rw [if_neg hm]
        intro heq
        have := congrArg DT.month heq
        simp at this
        omega
    · rw [if_neg hlt, if_pos (by omega : 20 ≤ t.day)]
      by_cases hm : t.month = 12
      · rw [if_pos hm]
        intro heq
        have := congrArg DT.year heq
        simp at this
      · rw [if_neg hm]
        intro heq
        have := congrArg DT.month heq
        simp at this

/-- Witness for C6 at the valid instant 2025-01-25 10:00:00, which lies
inside its round (2025-01-20 .. 2025-02-02). -/
theorem C6_next_start_witness :
    get_next_signup_start ⟨2025, 1, 25, 10, 0, 0⟩ = ⟨2025, 2, 20, 0, 0, 0⟩ ∧
    DT.le ⟨2025, 1, 25, 10, 0, 0⟩ (get_next_signup_start ⟨2025, 1, 25, 10, 0, 0⟩)
      = true ∧
    get_next_signup_start ⟨2025, 1, 25, 10, 0, 0⟩
      ≠ (get_signup_window ⟨2025, 1, 25, 10, 0, 0⟩).1 := by
  have H := C6_next_start ⟨2025, 1, 25, 10, 0, 0⟩ (by decide)
  refine ⟨?_, H.2.2.1, H.2.2.2 (by decide) (by decide)⟩
  have h2 := H.2.1 (by decide)
  simpa [spec_following_month] using h2

lemma lock_acquire_from_none_of_busy (busy : Nat → Bool) (hb : ∀ i, busy i = true) :
    ∀ (fuel j : Nat), 68 - j ≤ fuel → lock_acquire_from busy j = none := by
  intro fuel
  induction fuel with
  | zero =>
    intro j hj
    rw [lock_acquire_from, hb j]
    simp only [Bool.true_eq_false, if_false]
    rw [dif_pos (by omega)]
  | succ n ih =>
    intro j hj
    rw [lock_acquire_from, hb j]
    simp only [Bool.true_eq_false, if_false]
    by_cases h8 : 8000 < 120 * j
    · rw [dif_pos h8]
    · rw [dif_neg h8]
      exact ih (j + 1) (by omega)

lemma lock_acquire_from_bound (busy : Nat → Bool) :
    ∀ (fuel j i : Nat), 68 - j ≤ fuel →
      lock_acquire_from busy j = some i → i ≤ max j 67 := by
  intro fuel
  induction fuel with
  | zero =>
    intro j i hj h
    rw [lock_acquire_from] at h
    by_cases hbj : busy j = false
    · rw [if_pos hbj] at h
      injection h with h
      omega
    · rw [if_neg hbj, dif_pos (by omega)] at h
      cases h
  | succ n ih =>
    intro j i hj h
    rw [lock_acquire_from] at h
    by_cases hbj : busy j = false
    · rw [if_pos hbj] at h
      injection h with h
      omega
    · rw [if_neg hbj] at h
      by_cases h8 : 8000 < 120 * j
      · rw [dif_pos h8] at h
        cases h
      · rw [dif_neg h8] at h
        have := ih (j + 1) i (by omega) h
        omega

/-- C8: the `file_lock` acquisition loop (exclusive-create modelled by the
`busy` availability predicate) retries with the fixed 120 ms backoff, never
sleeps past the 8-second bound (any successful attempt `i` has elapsed
time `120 * i ≤ 8040` ms, under nine seconds), and on exhaustion (a
permanently held lock) raises the `TimeoutError` carrying the
"system busy" message rather than looping forever; when that happens
`save_full_data` leaves the persisted snapshot unchanged and surfaces the
message; and the lock marker is absent after every exit of the locked
region, whether the body succeeded or raised. -/
theorem C8_lock_bounded (busy : Nat → Bool) (disk df : List Entry)
    (body : Except String (List Entry)) :
    ((∀ i, busy i = true) → lock_acquire busy = none) ∧
    (∀ i, lock_acquire busy = some i → 120 * i ≤ 8040) ∧
    (lock_acquire busy = none →
      save_full_data_m busy disk df = (disk, some LOCK_TIMEOUT_MSG)) ∧
    (file_lock_run busy body).2.markerAfter = false := by
  refine ⟨?_, ?_, ?_, ?_⟩
  · intro hb
    exact lock_acquire_from_none_of_busy busy hb 68 0 (by omega)
  · intro i h
    have := lock_acquire_from_bound busy 68 0 i (by omega) h
    omega
  · intro h
    rw [save_full_data_m, h]
  · rw [file_lock_run]
    cases lock_acquire busy <;> rfl

/-- Witness for C8: with the lock permanently held the acquisition times
out and the snapshot write is refused with the busy message; with the lock
free the first attempt (zero elapsed milliseconds) succeeds. -/
theorem C8_lock_bounded_witness :
    lock_acquire (fun _ => true) = none ∧
    save_full_data_m (fun _ => true) [] [cex_entry]
      = ([], some LOCK_TIMEOUT_MSG) ∧
    (file_lock_run (fun _ => true) (Except.error "boom")).2.markerAfter = false ∧
    lock_acquire (fun _ => false) = some 0 ∧
    120 * 0 ≤ 8040 := by
  have H := C8_lock_bounded (fun _ => true) [] [cex_entry] (Except.error "boom")
  have hnone : lock_acquire (fun _ => true) = none := H.1 (fun i => rfl)
  have hfree : lock_acquire (fun _ => false) = some 0 := by
    rw [lock_acquire, lock_acquire_from]
    simp
  refine ⟨hnone, H.2.2.1 hnone, H.2.2.2, hfree, ?_⟩
  exact (C8_lock_bounded (fun _ => false) [] [] (Except.ok [])).2.1 0 hfree

lemma length_dropWhile_le_char (p : Char → Bool) (l : List Char) :
    (l.dropWhile p).length ≤ l.length := by
  induction l with
  | nil => simp
  | cons c cs ih =>
    rw [List.dropWhile_cons]
    split
    · exact le_trans ih (by simp)
    · simp

/-- Clean characterization of Python `split()`: skip whitespace, then cut
the maximal whitespace-free prefix as the next word. -/
def wordsW (cs : List Char) : List (List Char) :=
  match cs with
  | [] => []
  | c :: cs2 =>
    if pyIsSpace c then wordsW cs2
    else (c :: cs2.takeWhile (fun x => !pyIsSpace x))
        :: wordsW (cs2.dropWhile (fun x => !pyIsSpace x))
termination_by cs.length
decreasing_by
  · simp
  · have := length_dropWhile_le_char (fun x => !pyIsSpace x) cs2
    simp
    omega

lemma splitAux_spec (cs : List Char) :
    (splitAux cs [] = wordsW cs) ∧
    (∀ a acc, splitAux cs (a :: acc) =
      ((a :: acc).reverse ++ cs.takeWhile (fun x => !pyIsSpace x))
        :: wordsW (cs.dropWhile (fun x => !pyIsSpace x))) := by
  induction cs with
  | nil =>
    constructor
    · simp [splitAux, wordsW]
    · intro a acc
      simp [splitAux, wordsW]
  | cons c cs ih =>
    constructor
    · rw [splitAux, wordsW]
      by_cases hc : pyIsSpace c
      · rw [if_pos hc, if_pos hc]
        simp only [List.isEmpty_nil, if_true]
        exact ih.1
      · rw [if_neg hc, if_neg hc]
        have h2 := ih.2 c []
        rw [h2]
        simp
    · intro a acc
      rw [splitAux]
      by_cases hc : pyIsSpace c
      · rw [if_pos hc]
        simp only [List.isEmpty_cons, if_false]
        rw [List.takeWhile_cons, List.dropWhile_cons]
        rw [hc]
        simp only [Bool.not_true, Bool.false_eq_true, if_false]
        rw [ih.1, wordsW, if_pos hc]
        simp
      · rw [if_neg hc]
        have hcf : pyIsSpace c = false := by
          cases h : pyIsSpace c
          · rfl
          · exact absurd h hc
        rw [ih.2 c (a :: acc), List.takeWhile_cons, List.dropWhile_cons, hcf]
        simp

/-- Words produced by splitting: non-empty and whitespace-free. -/
def WordLike (ws : List (List Char)) : Prop :=
  ∀ w ∈ ws, w ≠ [] ∧ ∀ c ∈ w, pyIsSpace c = false

lemma wordsW_sound (fuel : Nat) : ∀ (cs : List Char), cs.length ≤ fuel →
    WordLike (wordsW cs) := by
  induction fuel with
  | zero =>
    intro cs hlen w hw
    have hnil : cs = [] := List.length_eq_zero.mp (by omega)
    subst hnil
    rw [wordsW] at hw
    simp at hw
  | succ n ih =>
    intro cs hlen w hw
    cases cs with
    | nil =>
      rw [wordsW] at hw
      simp at hw
    | cons c cs2 =>
      rw [wordsW] at hw
      by_cases hc : pyIsSpace c
      · rw [if_pos hc] at hw
        exact ih cs2 (by simp at hlen; omega) w hw
      · rw [if_neg hc] at hw
        have hcf : pyIsSpace c = false := by
          cases h : pyIsSpace c
          · rfl
          · exact absurd h hc
        rcases List.mem_cons.mp hw with rfl | hmem
        · refine ⟨by simp, ?_⟩
          intro x hx
          rcases List.mem_cons.mp hx with rfl | hx2
          · exact hcf
          · have := List.mem_takeWhile_imp hx2
            simpa using this
        · have hdrop : (cs2.dropWhile (fun x => !pyIsSpace x)).length ≤ n := by
            have := length_dropWhile_le_char (fun x => !pyIsSpace x) cs2
            simp at hlen
            omega
          exact ih _ hdrop w hmem

lemma takeWhile_all_nonspace (l : List Char) (h : ∀ c ∈ l, pyIsSpace c = false) :
    l.takeWhile (fun x => !pyIsSpace x) = l := by
  induction l with
  | nil => rfl
  | cons c cs ih =>
    rw [List.takeWhile_cons, h c (List.mem_cons_self c cs)]
    simp only [Bool.not_false, if_true]
    rw [ih (fun x hx => h x (List.mem_cons_of_mem c hx))]

lemma dropWhile_all_nonspace (l : List Char) (h : ∀ c ∈ l, pyIsSpace c = false) :
    l.dropWhile (fun x => !pyIsSpace x) = [] := by
  induction l with
  | nil => rfl
  | cons c cs ih =>
    rw [List.dropWhile_cons, h c (List.mem_cons_self c cs)]
    simp only [Bool.not_false, if_true]
    exact ih (fun x hx => h x (List.mem_cons_of_mem c hx))

lemma takeWhile_stop (l r : List Char) (h : ∀ c ∈ l, pyIsSpace c = false) :
    (l ++ ' ' :: r).takeWhile (fun x => !pyIsSpace x) = l := by
  induction l with
  | nil =>
    simp [List.takeWhile_cons, pyIsSpace]
  | cons c cs ih =>
    rw [List.cons_append, List.takeWhile_cons, h c (List.mem_cons_self c cs)]
    simp only [Bool.not_false, if_true]
    rw [ih (fun x hx => h x (List.mem_cons_of_mem c hx))]

lemma dropWhile_stop (l r : List Char) (h : ∀ c ∈ l, pyIsSpace c = false) :
    (l ++ ' ' :: r).dropWhile (fun x => !pyIsSpace x) = ' ' :: r := by
  induction l with
  | nil =>
    simp [List.dropWhile_cons, pyIsSpace]
  | cons c cs ih =>
    rw [List.cons_append, List.dropWhile_cons, h c (List.mem_cons_self c cs)]
    simp only [Bool.not_false, if_true]
    exact ih (fun x hx => h x (List.mem_cons_of_mem c hx))

lemma wordsW_joinSp (ws : List (List Char)) (h : WordLike ws) :
    wordsW (joinSp ws) = ws := by
  induction ws with
  | nil => simp [joinSp, wordsW]
  | cons w ws ih =>
    obtain ⟨hne, hns⟩ := h w (List.mem_cons_self w ws)
    obtain ⟨c, rest, rfl⟩ := List.exists_cons_of_ne_nil hne
    have hcf : pyIsSpace c = false := hns c (List.mem_cons_self c rest)
    have hrest : ∀ x ∈ rest, pyIsSpace x = false :=
      fun x hx => hns x (List.mem_cons_of_mem c hx)
    cases ws with
    | nil =>
      rw [joinSp, wordsW, if_neg (by simp [hcf])]
      rw [takeWhile_all_nonspace rest hrest, dropWhile_all_nonspace rest hrest]
      rw [wordsW]
    | cons w2 ws2 =>
      rw [joinSp, List.cons_append, wordsW, if_neg (by simp [hcf])]
      rw [takeWhile_stop rest _ hrest, dropWhile_stop rest _ hrest]
      have hws : WordLike (w2 :: ws2) :=
        fun x hx => h x (List.mem_cons_of_mem _ hx)
      rw [wordsW, if_pos (by simp [pyIsSpace])]
      rw [ih hws]

lemma joinSp_ne_nil (w : List Char) (ws : List (List Char)) (hw : w ≠ []) :
    joinSp (w :: ws) ≠ [] := by
  cases ws with
  | nil => simpa [joinSp] using hw
  | cons w2 ws2 =>
    rw [joinSp]
    simp

lemma joinSp_head (w : List Char) (ws : List (List Char)) (hw : w ≠ []) :
    (joinSp (w :: ws)).head? = w.head? := by
  cases ws with
  | nil => rw [joinSp]
  | cons w2 ws2 =>
    obtain ⟨c, rest, rfl⟩ := List.exists_cons_of_ne_nil hw
    rw [joinSp, List.cons_append, List.head?_cons, List.head?_cons]

lemma joinSp_getLast_nonspace (ws : List (List Char)) (h : WordLike ws) :
    ∀ c, (joinSp ws).getLast? = some c → pyIsSpace c = false := by
  induction ws with
  | nil =>
    intro c hc
    rw [joinSp] at hc
    cases hc
  | cons w ws ih =>
    cases ws with
    | nil =>
      intro c hc
      rw [joinSp] at hc
      obtain ⟨hne, hns⟩ := h w (List.mem_cons_self w [])
      exact hns c (List.mem_of_getLast?_eq_some hc)
    | cons w2 ws2 =>
      intro c hc
      rw [joinSp, List.getLast?_append] at hc
      have hJne : joinSp (w2 :: ws2) ≠ [] :=
        joinSp_ne_nil w2 ws2 (h w2 (List.mem_cons_of_mem w (List.mem_cons_self w2 ws2))).1
      obtain ⟨d, hd⟩ : ∃ d, (joinSp (w2 :: ws2)).getLast? = some d := by
        cases hJ : (joinSp (w2 :: ws2)).getLast? with
        | none =>
          rw [List.getLast?_eq_none_iff] at hJ
          exact absurd hJ hJne
        | some d => exact ⟨d, rfl⟩
      have hlast : (' ' :: joinSp (w2 :: ws2)).getLast? = some d := by
        obtain ⟨e, es, hes⟩ := List.exists_cons_of_ne_nil hJne
        rw [hes, List.getLast?_cons_cons, ← hes, hd]
      rw [hlast, Option.or_some] at hc
      injection hc with hc
      rw [hc] at hd
      exact ih (fun x hx => h x (List.mem_cons_of_mem w hx)) c hd

lemma pyStrip_eq_self (cs : List Char)
    (h1 : ∀ c, cs.head? = some c → pyIsSpace c = false)
    (h2 : ∀ c, cs.getLast? = some c → pyIsSpace c = false) :
    pyStrip cs = cs := by
  cases cs with
  | nil => rfl
  | cons c cs2 =>
    rw [pyStrip, List.dropWhile_cons, h1 c List.head?_cons]
    simp only [Bool.false_eq_true, if_false]
    cases hr : (c :: cs2).reverse with
    | nil => exact absurd hr (by simp)
    | cons d ds =>
      have hd : (c :: cs2).getLast? = some d := by
        rw [← List.head?_reverse, hr, List.head?_cons]
      rw [List.dropWhile_cons, h2 d hd]
      simp only [Bool.false_eq_true, if_false]
      rw [← hr, List.reverse_reverse]

lemma joinSp_fixed (ws : List (List Char)) (h : WordLike ws) :
    wordsW (pyStrip (joinSp ws)) = ws := by
  have hstrip : pyStrip (joinSp ws) = joinSp ws := by
    cases ws with
    | nil => rfl
    | cons w ws2 =>
      have hwne : w ≠ [] := (h w (List.mem_cons_self w ws2)).1
      apply pyStrip_eq_self
      · intro c hc
        rw [joinSp_head w ws2 hwne] at hc
        obtain ⟨c0, rest, rfl⟩ := List.exists_cons_of_ne_nil hwne
        rw [List.head?_cons] at hc
        injection hc with hc
        rw [← hc]
        exact (h _ (List.mem_cons_self _ ws2)).2 c0 (List.mem_cons_self c0 rest)
      · exact joinSp_getLast_nonspace (w :: ws2) h
  rw [hstrip, wordsW_joinSp ws h]

/-- C7: `normalize_name` trims leading/trailing whitespace and collapses
every internal whitespace run to one space — `"  a   b "` becomes `"a b"`,
`""` stays `""` — and it is idempotent on every string. -/
theorem C7_normalize_idempotent :
    normalize_name (some "  a   b ") = "a b" ∧
    normalize_name (some "") = "" ∧
    ∀ x : String,
      normalize_name (some (normalize_name (some x))) = normalize_name (some x) := by
  refine ⟨by decide, rfl, ?_⟩
  intro x
  show String.mk (joinSp (pySplit (pyStrip
        (String.mk (joinSp (pySplit (pyStrip x.data)))).data)))
      = String.mk (joinSp (pySplit (pyStrip x.data)))
  have hsplit : ∀ cs, pySplit cs = wordsW cs := fun cs => (splitAux_spec cs).1
  refine congrArg String.mk ?_
  show joinSp (pySplit (pyStrip (joinSp (pySplit (pyStrip x.data)))))
      = joinSp (pySplit (pyStrip x.data))
  rw [hsplit, hsplit]
  rw [joinSp_fixed (wordsW (pyStrip x.data))
    (wordsW_sound (pyStrip x.data).length (pyStrip x.data) le_rfl)]
